import Mathlib

/-!
  # Verification of `poetry_to_uv.py`

  A shallow embedding of the transformation pipeline of `poetry_to_uv.py`
  (a converter from a poetry `pyproject.toml` to a uv one) together with
  proofs about its behaviour.

  Modelling conventions:
  * A parsed TOML document is a `Toml` tree.  Python `dict`s are modelled
    as association lists `List (String × Toml)` preserving insertion order
    (Python 3.7+ `dict` semantics); keys are unique in any list produced
    by the `toml` loader, and the operations below preserve uniqueness.
  * Python exceptions are modelled with `Except PyErr`; the functions of
    the script are partial in exactly the places where the Python raises.
    Diagnostic `print` calls are side effects with no influence on the
    document and are not modelled.
  * Python strings are Lean `String`s; regular-expression matching is
    implemented character by character on `String.data`, following the
    semantics of the `re` module: `re.match` anchors at the start only,
    `.` matches any character except a newline, and the `$` anchor
    matches at the end of the string and also just before a newline that
    ends the string.  Python's `\w` class for `str` patterns is
    Unicode-aware; the author matching is parameterized by that class
    (`W : Char → Bool`), of which the code's logic uses only that `<`,
    `>` and the newline are not word characters, and is evaluated on
    the concrete (all-ASCII) documents of this file at the ASCII
    instance, which agrees with Python's class on ASCII characters.
-/

/-- The TOML value tree manipulated by the script (also the shape of the
in-memory result of Python's `toml.load`). -/
inductive Toml where
  | str : String → Toml
  | bool : Bool → Toml
  | arr : List Toml → Toml
  | table : List (String × Toml) → Toml

/-- First-match lookup in an association list (Python `dict` access;
keys are unique so the first match is the only one). -/
def lookupD {α : Type} : List (String × α) → String → Option α
  | [], _ => none
  | (k, v) :: rest, key => if k = key then some v else lookupD rest key

/-- Python `d[key] = v`: replace in place when the key exists (keeping
its position, as Python dicts do), otherwise append at the end. -/
def insertD {α : Type} : List (String × α) → String → α → List (String × α)
  | [], key, v => [(key, v)]
  | (k, w) :: rest, key, v =>
    if k = key then (k, v) :: rest else (k, w) :: insertD rest key v

/-- Python `del d[key]` (no-op when absent; callers only delete
present keys). -/
def eraseD {α : Type} : List (String × α) → String → List (String × α)
  | [], _ => []
  | (k, w) :: rest, key => if k = key then rest else (k, w) :: eraseD rest key

namespace Toml

/-- Python truthiness of an optional TOML value (`None`, empty string,
empty list, empty dict and `False` are falsy). -/
def pyTruthy : Option Toml → Bool
  | none => false
  | some (.str s) => !(s == "")
  | some (.bool b) => b
  | some (.arr l) => !l.isEmpty
  | some (.table t) => !t.isEmpty

/-- Python `str()` of a TOML value, as used inside f-strings.  The
script only ever formats strings this way in its intended inputs; for
the remaining constructors a plain rendering is used. -/
def pyStr : Toml → String
  | .str s => s
  | .bool b => if b then "True" else "False"
  | .arr _ => "[...]"
  | .table _ => "\x7b...\x7d"

end Toml

/-- The Python exception classes the script can raise. -/
inductive PyErr where
  | valueError
  | typeError
  | keyError
  | attributeError
  deriving DecidableEq, Repr

open Toml

/-- The compiled pattern `gt_version = re.compile(r"\^(\d.*)")` applied
with `.match`: anchored at the start, a literal `^`, then group 1 is a
digit followed by `.*` — greedily, every following character up to (not
including) a newline; the rest of the string need not be consumed. -/
def caretGroup : List Char → Option (List Char)
  | a :: c :: rest =>
    if a = '^' && c.isDigit then some (c :: rest.takeWhile (· ≠ '\n')) else none
  | _ => none

/-- `version_conversion` (lines 26–33): `"*"` maps to `""`, a caret
constraint maps to `>=` plus the matched group, anything else prints a
diagnostic and raises `ValueError`. -/
def version_conversion (v : String) : Except PyErr String :=
  if v = "*" then .ok ""
  else
    match caretGroup v.data with
    | some g => .ok (">=" ++ String.mk g)
    | none => .error .valueError

/-- Applying `version_conversion` to an arbitrary TOML value, as the
script does when a dependency value is not a string: `version == "*"`
is `False` for a non-string, and `gt_version.match` then raises
`TypeError` (expected string or bytes-like object). -/
def pyVersionConversion : Toml → Except PyErr String
  | .str s => version_conversion s
  | _ => .error .typeError

-- Sanity checks of the translator on concrete constraint strings.
example : version_conversion "*" = .ok "" := rfl
example : version_conversion "^3.10" = .ok ">=3.10" := rfl
example : version_conversion "~1.0" = .error .valueError := rfl
example : version_conversion "1.0" = .error .valueError := rfl

/-- C1 counterexample: the claim promises `>=X` for every caret
constraint `^X` with `X` beginning with a digit, but `.` in the
pattern `\^(\d.*)` does not match a newline and `re.match` does not
anchor the end, so for `X = "1\n2"` the translator returns `>=1`
rather than `>=1\n2`. -/
theorem claim_C1_counterexample :
    version_conversion "^1\n2" = Except.ok ">=1" ∧ (">=1" : String) ≠ ">=" ++ "1\n2" :=
  ⟨rfl, by decide⟩

/-- C1 (amended): the wildcard `"*"` yields the empty string; a caret
constraint `^X` with `X` beginning with a digit and containing no
newline yields `>=X`; and every string that is neither `"*"` nor a
caret-digit string makes `version_conversion` raise `ValueError`
(spec name `UnsupportedConstraint`) after printing a diagnostic. -/
theorem claim_C1 :
    version_conversion "*" = Except.ok "" ∧
    (∀ (c : Char) (X : List Char), c.isDigit = true → '\n' ∉ c :: X →
      version_conversion (String.mk ('^' :: c :: X)) =
        Except.ok (String.mk ('>' :: '=' :: c :: X))) ∧
    (∀ v : String, v ≠ "*" →
      (∀ (c : Char) (rest : List Char), v.data = '^' :: c :: rest → c.isDigit = false) →
      version_conversion v = Except.error PyErr.valueError) := by
  refine ⟨rfl, ?_, ?_⟩
  · intro c X hc hnl
    have hne : String.mk ('^' :: c :: X) ≠ "*" := by
      simp [String.ext_iff]
    have hcg : caretGroup ('^' :: c :: X) = some (c :: X.takeWhile (· ≠ '\n')) := by
      simp [caretGroup, hc]
    have htw : X.takeWhile (· ≠ '\n') = X := by
      apply List.takeWhile_eq_self_iff.mpr
      intro a ha
      simp only [ne_eq, decide_not, Bool.not_eq_true', decide_eq_false_iff_not]
      intro h
      exact hnl (h ▸ List.mem_cons_of_mem _ ha)
    simp only [version_conversion, if_neg hne]
    rw [hcg, htw]
    rfl
  · intro v hv hform
    have hcg : caretGroup v.data = none := by
      rcases hd : v.data with _ | ⟨a, _ | ⟨c, rest⟩⟩
      · rfl
      · rfl
      · simp only [caretGroup]
        rw [if_neg]
        simp only [Bool.and_eq_true, decide_eq_true_eq, not_and]
        intro ha hc
        have hdig := hform c rest (by rw [hd, ha])
        rw [hdig] at hc
        exact Bool.noConfusion hc
    simp only [version_conversion, if_neg hv, hcg]

/-- C1 witness: the amended theorem applied at `^3.10` (caret part) and
`~1.2` (unsupported part). -/
theorem claim_C1_witness :
    version_conversion (String.mk ['^', '3', '.', '1', '0']) =
      Except.ok (String.mk ['>', '=', '3', '.', '1', '0']) ∧
    version_conversion "~1.2" = Except.error PyErr.valueError := by
  constructor
  · exact claim_C1.2.1 '3' ['.', '1', '0'] (by decide) (by decide)
  · refine claim_C1.2.2 "~1.2" (by decide) ?_
    intro c rest h
    injection h with h1 _
    exact absurd h1 (by decide)

/-! ## The Dependency-Table Partitioner (`parse_packages`, lines 103–119) -/

/-- The `for i in e:` loop of the extras branch (lines 111–113): for
each extra `i`, the f-string `f"{name}[{i}]{version_conversion(v)}"`
is appended to `uv_deps`; a conversion failure raises before the
append. -/
def extrasLoop (name : String) (v : Toml) :
    List Toml → List String → Except PyErr (List String)
  | [], uv => .ok uv
  | i :: rest, uv =>
    match pyVersionConversion v with
    | .error e => .error e
    | .ok cv => extrasLoop name v rest (uv ++ [name ++ "[" ++ pyStr i ++ "]" ++ cv])

/-- `parse_packages(deps, uv_deps, uv_deps_optional)` (lines 103–119).
`uv` is the `uv_deps` list being appended to and `opt` the
`uv_deps_optional` dict being written to; the final values of both are
returned.  For a table value: a truthy `extras` value selects the
extras branch (fetching `version["version"]` first — `KeyError` when
absent — then iterating `e`: a list element-wise, a string character-
wise, a dict over its keys, anything else `TypeError`); otherwise a
truthy `optional` routes the translated constraint into `opt`;
otherwise the whole table value falls through to the scalar append,
where `version_conversion` on a non-string raises `TypeError`. -/
def parse_packages :
    List (String × Toml) → List String → List (String × String) →
      Except PyErr (List String × List (String × String))
  | [], uv, opt => .ok (uv, opt)
  | (name, version) :: rest, uv, opt =>
    match version with
    | .table t =>
      if pyTruthy (lookupD t "extras") then
        match lookupD t "version" with
        | none => .error .keyError
        | some v =>
          match lookupD t "extras" with
          | some (.arr l) =>
            match extrasLoop name v l uv with
            | .error e => .error e
            | .ok uv' => parse_packages rest uv' opt
          | some (.str s) =>
            match extrasLoop name v (s.data.map fun ch => .str (String.mk [ch])) uv with
            | .error e => .error e
            | .ok uv' => parse_packages rest uv' opt
          | some (.table m) =>
            match extrasLoop name v (m.map fun kv => .str kv.1) uv with
            | .error e => .error e
            | .ok uv' => parse_packages rest uv' opt
          | _ => .error .typeError
      else if pyTruthy (lookupD t "optional") then
        match lookupD t "version" with
        | none => .error .keyError
        | some v =>
          match pyVersionConversion v with
          | .error e => .error e
          | .ok cv => parse_packages rest uv (insertD opt name cv)
      else
        match pyVersionConversion version with
        | .error e => .error e
        | .ok cv => parse_packages rest (uv ++ [name ++ cv]) opt
    | _ =>
      match pyVersionConversion version with
      | .error e => .error e
      | .ok cv => parse_packages rest (uv ++ [name ++ cv]) opt

-- Sanity checks on concrete dependency tables.
example :
    parse_packages [("requests", .str "^2.0")] [] [] = .ok (["requests>=2.0"], []) := rfl
example :
    parse_packages [("bar", .table [("version", .str "^2.0"), ("optional", .bool true)])] [] [] =
      .ok ([], [("bar", ">=2.0")]) := rfl

/-- C2: for a dependency-table entry
`foo = {version = "^1.2", extras = ["a", "b"]}` the partitioner appends
exactly `foo[a]>=1.2` and `foo[b]>=1.2`, in that order, to the main
list, whatever its previous contents, and leaves the optional mapping
untouched. -/
theorem claim_C2 (uv : List String) (opt : List (String × String)) :
    parse_packages
      [("foo", Toml.table [("version", Toml.str "^1.2"),
                           ("extras", Toml.arr [Toml.str "a", Toml.str "b"])])] uv opt =
      Except.ok (uv ++ ["foo[a]>=1.2", "foo[b]>=1.2"], opt) := by
  have h : uv ++ ["foo[a]>=1.2", "foo[b]>=1.2"] = (uv ++ ["foo[a]>=1.2"]) ++ ["foo[b]>=1.2"] := by
    simp
  rw [h]
  rfl

/-- C4 counterexample: an entry whose table carries `extras = []` is
not silently dropped — the empty list is falsy, so the code falls
through to the scalar append and `version_conversion` raises
`TypeError` on the table value. -/
theorem claim_C4_counterexample :
    parse_packages
      [("foo", Toml.table [("version", Toml.str "^1.0"), ("extras", Toml.arr [])])] [] [] =
      Except.error PyErr.typeError ∧
    (Except.error PyErr.typeError
      ≠ (Except.ok (([] : List String), ([] : List (String × String))))) :=
  ⟨rfl, fun h => Except.noConfusion h⟩

/-- C4 (amended): an entry whose table has `extras` bound to the empty
list and no truthy `optional` flag is not dropped silently; the falsy
empty list sends it to the scalar-style append, which applies
`version_conversion` to the whole table and raises `TypeError` (so
nothing is emitted and nothing is recorded in the optional mapping —
the run aborts instead). -/
theorem claim_C4 (name : String) (t rest : List (String × Toml))
    (uv : List String) (opt : List (String × String))
    (hex : lookupD t "extras" = some (Toml.arr []))
    (hopt : Toml.pyTruthy (lookupD t "optional") = false) :
    parse_packages ((name, Toml.table t) :: rest) uv opt = Except.error PyErr.typeError := by
  have h1 : pyTruthy (lookupD t "extras") = false := by rw [hex]; rfl
  simp [parse_packages, h1, hopt, pyVersionConversion]

/-- C4 witness: the amended theorem applied to a concrete entry with an
empty extras list, a missing `optional` flag and a trailing entry. -/
theorem claim_C4_witness :
    parse_packages [("bar", Toml.table [("extras", Toml.arr [])]), ("x", Toml.str "*")] [] [] =
      Except.error PyErr.typeError :=
  claim_C4 "bar" [("extras", Toml.arr [])] [("x", Toml.str "*")] [] [] rfl rfl

/-! ## The Author-Field Parser (`authors`, lines 36–68) -/

/-!
The three patterns of `authors` use Python's `\w` class, which for
`str` patterns is Unicode-aware (all Unicode word characters — far
more than ASCII).  The matching logic of the code never depends on the
full extent of that class: the only facts it relies on are that the
delimiters `<` and `>` and the newline are not word characters.  The
definitions below therefore take the word-character class as a
parameter `W : Char → Bool`, and the C5 theorem holds for every `W`
excluding those three characters — in particular for Python's actual
Unicode `\w`.  For running the model on the concrete documents of this
file (which are all ASCII) the instance `isWordChar` below is used; it
agrees with Python's `\w` on every ASCII character.
-/

/-- The class `[\w ]` used for the name groups, over the
word-character class `W`. -/
def isNameCharW (W : Char → Bool) (c : Char) : Bool := W c || c = ' '

/-- The class `[\w@.]` used for the email groups, over the
word-character class `W`. -/
def isEmailCharW (W : Char → Bool) (c : Char) : Bool := W c || c = '@' || c = '.'

/-- The pattern `^([\w ]+) <([\w@.]+)>$` without its `$` anchor,
required to consume the given string completely.  Neither character
class contains `<`, so the literal `<` of the pattern is the first `<`
of the string; the (backtracking, greedy) group 1 is everything before
the space preceding it.  `$` is handled by `pyDollar` below. -/
def userEmailCoreW (W : Char → Bool) (s : List Char) : Option (List Char × List Char) :=
  let pre := s.takeWhile (· ≠ '<')
  match s.dropWhile (· ≠ '<') with
  | [] => none
  | _ :: r2 =>
    let em := r2.takeWhile (isEmailCharW W)
    if pre.all (isNameCharW W) = true ∧ pre.getLast? = some ' ' ∧ pre.dropLast ≠ [] ∧
        em ≠ [] ∧ r2.dropWhile (isEmailCharW W) = ['>'] then
      some (pre.dropLast, em)
    else none

/-- The pattern `^<([\w@.]+)>$` without its `$` anchor. -/
def onlyEmailCoreW (W : Char → Bool) (s : List Char) : Option (List Char) :=
  match s with
  | [] => none
  | a :: r2 =>
    let em := r2.takeWhile (isEmailCharW W)
    if a = '<' ∧ em ≠ [] ∧ r2.dropWhile (isEmailCharW W) = ['>'] then some em else none

/-- The pattern `^([\w ]+)$` without its `$` anchor. -/
def onlyUserCoreW (W : Char → Bool) (s : List Char) : Option (List Char) :=
  if s ≠ [] ∧ s.all (isNameCharW W) = true then some s else none

/-- Python's `$` anchor for a pattern that is anchored at the start and
whose core must otherwise reach the end: `$` matches at the end of the
string and also just before a newline that ends the string, so the
core must consume the whole string or the whole string minus one final
newline. -/
def pyDollar {α : Type} (core : List Char → Option α) (s : List Char) : Option α :=
  match core s with
  | some r => some r
  | none => if s.getLast? = some '\n' then core s.dropLast else none

/-- The classification of one author entry (lines 45–53): the three
patterns are tried in order and the matching one produces the
formatted record fragment pushed onto `new_authors`; `none` means the
entry falls to the manual-action branch. -/
def classifyAuthorW (W : Char → Bool) (author : String) : Option String :=
  match pyDollar (userEmailCoreW W) author.data with
  | some (n, e) =>
    some ("\x7bname = \"" ++ String.mk n ++ "\", email = \"" ++ String.mk e ++ "\"\x7d")
  | none =>
    match pyDollar (onlyEmailCoreW W) author.data with
    | some e => some ("\x7bemail = \"" ++ String.mk e ++ "\"\x7d")
    | none =>
      match pyDollar (onlyUserCoreW W) author.data with
      | some n => some ("\x7bname = \"" ++ String.mk n ++ "\"\x7d")
      | none => none

/-- The `for author in authors:` loop of `authors` (lines 44–61):
accumulates the `new_authors` fragments and the entries routed
verbatim to the manual-action bucket; `re.match` raises `TypeError`
when an element is not a string. -/
def authorsLoopW (W : Char → Bool) :
    List Toml → List String → List String → Except PyErr (List String × List String)
  | [], news, bucket => .ok (news, bucket)
  | a :: rest, news, bucket =>
    match a with
    | .str s =>
      match classifyAuthorW W s with
      | some r => authorsLoopW W rest (news ++ [r]) bucket
      | none => authorsLoopW W rest news (bucket ++ [s])
    | _ => .error .typeError

/-- `authors` (lines 36–68), acting on the top-level `uv_toml` dict.
A truthy list value is transformed entry by entry: unmatched entries
are appended to `project["authors_manual_action_and_delete"]` (created
on first use, while `authors` still holds its old position), matched
ones are rendered, and `authors` is deleted and re-added at the end as
the single serialized-array-looking string.  A falsy or missing value
yields the placeholder record string; a truthy non-list value leaves
the document untouched. -/
def authorsW (W : Char → Bool) (uv_toml : List (String × Toml)) :
    Except PyErr (List (String × Toml)) :=
  match lookupD uv_toml "project" with
  | none => .error .keyError
  | some (.table project) =>
    let av := lookupD project "authors"
    if pyTruthy av then
      match av with
      | some (.arr l) =>
        match authorsLoopW W l [] [] with
        | .error e => .error e
        | .ok (news, adds) =>
          match
            (if adds = [] then Except.ok project
             else
               match lookupD project "authors_manual_action_and_delete" with
               | none =>
                 Except.ok (insertD project "authors_manual_action_and_delete"
                   (.arr (adds.map .str)))
               | some (.arr b) =>
                 Except.ok (insertD project "authors_manual_action_and_delete"
                   (.arr (b ++ adds.map .str)))
               | some _ => (Except.error .attributeError :
                   Except PyErr (List (String × Toml)))) with
          | .error e => .error e
          | .ok project1 =>
            .ok (insertD uv_toml "project" (.table
              (insertD (eraseD project1 "authors") "authors"
                (.str ("[" ++ String.intercalate ", " news ++ "]")))))
      | _ => .ok uv_toml
    else
      .ok (insertD uv_toml "project" (.table (insertD project "authors"
        (.str "[\x7bname = \"example\", email = \"example@email.com\"\x7d]"))))
  | some _ => .error .attributeError

/-- The ASCII fragment of Python's `\w`: letters, digits and
underscore.  It agrees with the Unicode-aware `\w` on every ASCII
character (and, like it, excludes `<`, `>` and the newline), and is
the instance used to evaluate the model on the concrete, all-ASCII
documents of this file. -/
def isWordChar (c : Char) : Bool := c.isAlpha || c.isDigit || c = '_'

/-- The name class at the ASCII instance. -/
def isNameChar : Char → Bool := isNameCharW isWordChar

/-- The email class at the ASCII instance. -/
def isEmailChar : Char → Bool := isEmailCharW isWordChar

/-- The author classifier at the ASCII instance. -/
def classifyAuthor : String → Option String := classifyAuthorW isWordChar

/-- `authors` at the ASCII instance, as run by the pipeline on the
concrete documents of this file. -/
def authors : List (String × Toml) → Except PyErr (List (String × Toml)) :=
  authorsW isWordChar

-- Sanity checks of the author classifier on concrete entries.
example : classifyAuthor "First Last <first@domain.nl>" =
    some "\x7bname = \"First Last\", email = \"first@domain.nl\"\x7d" := rfl
example : classifyAuthor "<first@domain.nl>" = some "\x7bemail = \"first@domain.nl\"\x7d" := rfl
example : classifyAuthor "First Last" = some "\x7bname = \"First Last\"\x7d" := rfl
example : classifyAuthor "First Last <first@domain.nl" = none := rfl

/-! ### List helpers for the regex cores -/

/-- `takeWhile` walks past a block whose characters all satisfy the
predicate. -/
theorem takeWhile_append_all {α : Type} (p : α → Bool) (xs ys : List α)
    (h : ∀ x ∈ xs, p x = true) :
    (xs ++ ys).takeWhile p = xs ++ ys.takeWhile p := by
  induction xs with
  | nil => simp
  | cons a l ih =>
    rw [List.cons_append, List.takeWhile_cons, h a (List.mem_cons_self a l), if_pos rfl,
      ih (fun x hx => h x (List.mem_cons_of_mem _ hx)), List.cons_append]

/-- `dropWhile` drops a block whose characters all satisfy the
predicate. -/
theorem dropWhile_append_all {α : Type} (p : α → Bool) (xs ys : List α)
    (h : ∀ x ∈ xs, p x = true) :
    (xs ++ ys).dropWhile p = ys.dropWhile p := by
  induction xs with
  | nil => simp
  | cons a l ih =>
    rw [List.cons_append, List.dropWhile_cons, h a (List.mem_cons_self a l), if_pos rfl,
      ih (fun x hx => h x (List.mem_cons_of_mem _ hx))]

/-- When `<` is not a word character, a name character is not `<`. -/
theorem nameCharW_ne_lt (W : Char → Bool) (hW : W '<' = false) {x : Char}
    (h : isNameCharW W x = true) : x ≠ '<' := by
  intro hx
  subst hx
  simp [isNameCharW, hW] at h

/-- When the newline is not a word character, a name character is not
a newline. -/
theorem nameCharW_ne_nl (W : Char → Bool) (hW : W '\n' = false) {x : Char}
    (h : isNameCharW W x = true) : x ≠ '\n' := by
  intro hx
  subst hx
  simp [isNameCharW, hW] at h

/-- Evaluation of the `Name <email>` core on a decomposed string: it
matches exactly when nothing follows the closing `>`. -/
theorem userEmailCoreW_eval (W : Char → Bool) (hWlt : W '<' = false) (hWgt : W '>' = false)
    (n e tail : List Char)
    (hn : n ≠ []) (hna : n.all (isNameCharW W) = true)
    (he : e ≠ []) (hea : e.all (isEmailCharW W) = true) :
    userEmailCoreW W (n ++ ' ' :: '<' :: (e ++ '>' :: tail)) =
      if tail = [] then some (n, e) else none := by
  have hassoc : n ++ ' ' :: '<' :: (e ++ '>' :: tail) =
      (n ++ [' ']) ++ '<' :: (e ++ '>' :: tail) := by simp
  have hall : ∀ x ∈ n ++ [' '], (decide (x ≠ '<')) = true := by
    intro x hx
    rcases List.mem_append.mp hx with h | h
    · simp only [decide_eq_true_eq]
      exact nameCharW_ne_lt W hWlt (List.all_eq_true.mp hna x h)
    · simp only [List.mem_singleton] at h
      subst h
      decide
  have hpre : (n ++ ' ' :: '<' :: (e ++ '>' :: tail)).takeWhile (· ≠ '<') = n ++ [' '] := by
    rw [hassoc, takeWhile_append_all _ _ _ hall, List.takeWhile_cons]
    simp
  have hdrop : (n ++ ' ' :: '<' :: (e ++ '>' :: tail)).dropWhile (· ≠ '<') =
      '<' :: (e ++ '>' :: tail) := by
    rw [hassoc, dropWhile_append_all _ _ _ hall, List.dropWhile_cons]
    simp
  have hgt : isEmailCharW W '>' = false := by simp [isEmailCharW, hWgt]
  have hem : (e ++ '>' :: tail).takeWhile (isEmailCharW W) = e := by
    rw [takeWhile_append_all _ _ _ (List.all_eq_true.mp hea), List.takeWhile_cons, hgt]
    simp
  have hrem : (e ++ '>' :: tail).dropWhile (isEmailCharW W) = '>' :: tail := by
    rw [dropWhile_append_all _ _ _ (List.all_eq_true.mp hea), List.dropWhile_cons, hgt]
    simp
  simp only [userEmailCoreW, hpre, hdrop, hem, hrem]
  rcases Decidable.em (tail = []) with ht | ht
  · subst ht
    rw [if_pos, if_pos rfl]
    · simp
    · refine ⟨?_, List.getLast?_concat n, ?_, he, rfl⟩
      · simp only [List.all_append, hna, Bool.true_and]
        simp [isNameCharW]
      · rw [List.dropLast_concat]
        exact hn
  · rw [if_neg ht, if_neg]
    intro hcond
    have h1 : '>' :: tail = ['>'] := hcond.2.2.2.2
    injection h1 with _ h2
    exact ht h2

/-- Evaluation of the `<email>` core on a decomposed string. -/
theorem onlyEmailCoreW_eval (W : Char → Bool) (hWgt : W '>' = false) (e tail : List Char)
    (he : e ≠ []) (hea : e.all (isEmailCharW W) = true) :
    onlyEmailCoreW W ('<' :: (e ++ '>' :: tail)) = if tail = [] then some e else none := by
  have hgt : isEmailCharW W '>' = false := by simp [isEmailCharW, hWgt]
  have hem : (e ++ '>' :: tail).takeWhile (isEmailCharW W) = e := by
    rw [takeWhile_append_all _ _ _ (List.all_eq_true.mp hea), List.takeWhile_cons, hgt]
    simp
  have hrem : (e ++ '>' :: tail).dropWhile (isEmailCharW W) = '>' :: tail := by
    rw [dropWhile_append_all _ _ _ (List.all_eq_true.mp hea), List.dropWhile_cons, hgt]
    simp
  simp only [onlyEmailCoreW, hem, hrem]
  rcases Decidable.em (tail = []) with ht | ht
  · subst ht
    rw [if_pos rfl, if_pos ⟨trivial, he, rfl⟩]
  · rw [if_neg ht, if_neg]
    intro hcond
    have h1 : '>' :: tail = ['>'] := hcond.2.2
    injection h1 with _ h2
    exact ht h2

/-- The `Name <email>` core fails on any string containing no `<`. -/
theorem userEmailCoreW_no_lt (W : Char → Bool) (s : List Char) (h : ∀ x ∈ s, x ≠ '<') :
    userEmailCoreW W s = none := by
  have hdrop : s.dropWhile (· ≠ '<') = [] := by
    apply List.dropWhile_eq_nil_iff.mpr
    intro x hx
    simp only [decide_eq_true_eq]
    exact h x hx
  simp only [userEmailCoreW, hdrop]

/-- The `Name <email>` core fails on any string starting with `<`:
the name group would be empty. -/
theorem userEmailCoreW_head_lt (W : Char → Bool) (r : List Char) :
    userEmailCoreW W ('<' :: r) = none := by
  have hpre : ('<' :: r).takeWhile (· ≠ '<') = [] := by
    rw [List.takeWhile_cons]
    simp
  have hdrop : ('<' :: r).dropWhile (· ≠ '<') = '<' :: r := by
    rw [List.dropWhile_cons]
    simp
  simp only [userEmailCoreW, hpre, hdrop]
  rw [if_neg]
  intro hcond
  exact Option.noConfusion hcond.2.1

/-- The `<email>` core fails on any string not starting with `<`. -/
theorem onlyEmailCoreW_head_ne (W : Char → Bool) (a : Char) (r : List Char) (h : a ≠ '<') :
    onlyEmailCoreW W (a :: r) = none := by
  simp only [onlyEmailCoreW]
  rw [if_neg]
  intro hcond
  exact h hcond.1

/-- `pyDollar` returns what a successful core match returns. -/
theorem pyDollar_of_some {α : Type} (core : List Char → Option α) (s : List Char) (r : α)
    (h : core s = some r) : pyDollar core s = some r := by
  simp [pyDollar, h]

/-- On a string ending in a newline whose full form does not match,
`pyDollar` retries the core just before that newline. -/
theorem pyDollar_concat_nl {α : Type} (core : List Char → Option α) (s : List Char)
    (h : core (s ++ ['\n']) = none) : pyDollar core (s ++ ['\n']) = core s := by
  simp [pyDollar, h, List.getLast?_concat, List.dropLast_concat]

/-- `pyDollar` fails when the core fails and the string does not end
in a newline. -/
theorem pyDollar_no_nl {α : Type} (core : List Char → Option α) (s : List Char)
    (h : core s = none) (h2 : s.getLast? ≠ some '\n') : pyDollar core s = none := by
  simp [pyDollar, h, h2]

/-- A `Name <email>` author entry (optionally ending in one newline,
which the `$` anchor tolerates) is classified as a name/email record. -/
theorem classifyW_userEmail (W : Char → Bool) (hWlt : W '<' = false) (hWgt : W '>' = false)
    (n e tail : List Char)
    (hn : n ≠ []) (hna : n.all (isNameCharW W) = true)
    (he : e ≠ []) (hea : e.all (isEmailCharW W) = true)
    (ht : tail = [] ∨ tail = ['\n']) :
    classifyAuthorW W (String.mk (n ++ ' ' :: '<' :: (e ++ '>' :: tail))) =
      some ("\x7bname = \"" ++ String.mk n ++ "\", email = \"" ++ String.mk e ++ "\"\x7d") := by
  have hcore0 := userEmailCoreW_eval W hWlt hWgt n e [] hn hna he hea
  rw [if_pos rfl] at hcore0
  have hpd : pyDollar (userEmailCoreW W) (n ++ ' ' :: '<' :: (e ++ '>' :: tail)) =
      some (n, e) := by
    rcases ht with ht | ht
    · subst ht
      exact pyDollar_of_some _ _ _ hcore0
    · subst ht
      have hfull := userEmailCoreW_eval W hWlt hWgt n e ['\n'] hn hna he hea
      rw [if_neg (by simp)] at hfull
      have hsplit : n ++ ' ' :: '<' :: (e ++ '>' :: ['\n']) =
          (n ++ ' ' :: '<' :: (e ++ ['>'])) ++ ['\n'] := by simp
      rw [hsplit]
      rw [hsplit] at hfull
      rw [pyDollar_concat_nl _ _ hfull]
      exact hcore0
  simp only [classifyAuthorW]
  rw [hpd]

/-- An `<email>`-only author entry (optionally ending in one newline)
is classified as an email record. -/
theorem classifyW_onlyEmail (W : Char → Bool) (hWgt : W '>' = false) (e tail : List Char)
    (he : e ≠ []) (hea : e.all (isEmailCharW W) = true)
    (ht : tail = [] ∨ tail = ['\n']) :
    classifyAuthorW W (String.mk ('<' :: (e ++ '>' :: tail))) =
      some ("\x7bemail = \"" ++ String.mk e ++ "\"\x7d") := by
  have hcore0 := onlyEmailCoreW_eval W hWgt e [] he hea
  rw [if_pos rfl] at hcore0
  have hue : pyDollar (userEmailCoreW W) ('<' :: (e ++ '>' :: tail)) = none := by
    rcases ht with ht | ht
    · subst ht
      apply pyDollar_no_nl _ _ (userEmailCoreW_head_lt W _)
      have hsplit : '<' :: (e ++ ['>']) = ('<' :: e) ++ ['>'] := by simp
      rw [hsplit, List.getLast?_concat]
      decide
    · subst ht
      have hsplit : '<' :: (e ++ '>' :: ['\n']) = ('<' :: (e ++ ['>'])) ++ ['\n'] := by simp
      rw [hsplit, pyDollar_concat_nl _ _ (hsplit ▸ userEmailCoreW_head_lt W _)]
      exact userEmailCoreW_head_lt W _
  have hoe : pyDollar (onlyEmailCoreW W) ('<' :: (e ++ '>' :: tail)) = some e := by
    rcases ht with ht | ht
    · subst ht
      exact pyDollar_of_some _ _ _ hcore0
    · subst ht
      have hfull := onlyEmailCoreW_eval W hWgt e ['\n'] he hea
      rw [if_neg (by simp)] at hfull
      have hsplit : '<' :: (e ++ '>' :: ['\n']) = ('<' :: (e ++ ['>'])) ++ ['\n'] := by simp
      rw [hsplit]
      rw [hsplit] at hfull
      rw [pyDollar_concat_nl _ _ hfull]
      exact hcore0
  simp only [classifyAuthorW]
  rw [hue, hoe]

/-- A bare-name author entry (optionally ending in one newline) is
classified as a name record. -/
theorem classifyW_onlyUser (W : Char → Bool) (hWlt : W '<' = false) (hWnl : W '\n' = false)
    (n tail : List Char)
    (hn : n ≠ []) (hna : n.all (isNameCharW W) = true)
    (ht : tail = [] ∨ tail = ['\n']) :
    classifyAuthorW W (String.mk (n ++ tail)) =
      some ("\x7bname = \"" ++ String.mk n ++ "\"\x7d") := by
  have hne_lt : ∀ x ∈ n, x ≠ '<' := fun x hx =>
    nameCharW_ne_lt W hWlt (List.all_eq_true.mp hna x hx)
  have hlastn : n.getLast? ≠ some '\n' := by
    intro hcontra
    have hmem : '\n' ∈ n := List.mem_of_mem_getLast? (Option.mem_def.mpr hcontra)
    exact nameCharW_ne_nl W hWnl (List.all_eq_true.mp hna _ hmem) rfl
  have hue : pyDollar (userEmailCoreW W) (n ++ tail) = none := by
    rcases ht with ht | ht
    · subst ht
      rw [List.append_nil]
      exact pyDollar_no_nl _ _ (userEmailCoreW_no_lt W n hne_lt) hlastn
    · subst ht
      have hnl2 : ∀ x ∈ n ++ ['\n'], x ≠ '<' := by
        intro x hx
        rcases List.mem_append.mp hx with h | h
        · exact hne_lt x h
        · simp only [List.mem_singleton] at h
          subst h
          decide
      rw [pyDollar_concat_nl _ _ (userEmailCoreW_no_lt W _ hnl2)]
      exact userEmailCoreW_no_lt W n hne_lt
  obtain ⟨a, n', rfl⟩ : ∃ a n', n = a :: n' := by
    cases n with
    | nil => exact absurd rfl hn
    | cons a n' => exact ⟨a, n', rfl⟩
  have ha : a ≠ '<' := hne_lt a (List.mem_cons_self ..)
  have hoe : pyDollar (onlyEmailCoreW W) ((a :: n') ++ tail) = none := by
    rcases ht with ht | ht
    · subst ht
      rw [List.append_nil]
      exact pyDollar_no_nl _ _ (onlyEmailCoreW_head_ne W a n' ha) hlastn
    · subst ht
      have hfull : onlyEmailCoreW W ((a :: n') ++ ['\n']) = none := by
        rw [List.cons_append]
        exact onlyEmailCoreW_head_ne W a _ ha
      rw [pyDollar_concat_nl _ _ hfull]
      exact onlyEmailCoreW_head_ne W a n' ha
  have hou : pyDollar (onlyUserCoreW W) ((a :: n') ++ tail) = some (a :: n') := by
    rcases ht with ht | ht
    · subst ht
      rw [List.append_nil]
      apply pyDollar_of_some
      simp only [onlyUserCoreW]
      rw [if_pos ⟨hn, hna⟩]
    · subst ht
      have hfull : onlyUserCoreW W ((a :: n') ++ ['\n']) = none := by
        simp only [onlyUserCoreW]
        rw [if_neg]
        intro hcond
        have h2 := List.all_eq_true.mp hcond.2 '\n' (by simp)
        simp [isNameCharW, hWnl] at h2
      rw [pyDollar_concat_nl _ _ hfull]
      simp only [onlyUserCoreW]
      rw [if_pos ⟨hn, hna⟩]
  simp only [classifyAuthorW]
  rw [hue, hoe, hou]

/-- The author loop turns a list of string entries into the rendered
fragments of the matched ones plus the unmatched ones verbatim,
preserving order on both sides. -/
theorem authorsLoopW_map_str (W : Char → Bool) (l : List String) (news bucket : List String) :
    authorsLoopW W (l.map Toml.str) news bucket =
      .ok (news ++ l.filterMap (classifyAuthorW W),
           bucket ++ l.filter (fun s => (classifyAuthorW W s).isNone)) := by
  induction l generalizing news bucket with
  | nil => simp [authorsLoopW]
  | cons s rest ih =>
    cases hc : classifyAuthorW W s with
    | some r =>
      have step : authorsLoopW W (List.map Toml.str (s :: rest)) news bucket =
          authorsLoopW W (List.map Toml.str rest) (news ++ [r]) bucket := by
        simp [authorsLoopW, hc]
      rw [step, ih]
      simp [hc]
    | none =>
      have step : authorsLoopW W (List.map Toml.str (s :: rest)) news bucket =
          authorsLoopW W (List.map Toml.str rest) news (bucket ++ [s]) := by
        simp [authorsLoopW, hc]
      rw [step, ih]
      simp [hc]

/-- C5 counterexample: `"John\n"` is not a bare name over word
characters and spaces (it contains a newline), so the claim sends it
to the manual-action bucket; but Python's `$` matches just before a
trailing newline, so the code classifies it as `{name = "John"}` and
adds nothing to the bucket.  The input is all ASCII, where the
evaluation instance `isWordChar` agrees with Python's `\w` character
by character. -/
theorem claim_C5_counterexample :
    authors [("project", Toml.table [("authors", Toml.arr [Toml.str "John\n"])])] =
      Except.ok [("project", Toml.table
        [("authors", Toml.str "[\x7bname = \"John\"\x7d]")])] ∧
    ("John\n").data.all isNameChar = false :=
  ⟨rfl, by decide⟩

/-- C5 (amended): for every word-character class `W` that excludes
`<`, `>` and the newline — as Python's Unicode-aware `\w` does —
entries matching `Name <email>`, `<email>` or a bare `Name` over that
class (tolerating, as Python's `$` anchor does, one trailing newline)
are classified, first match wins, into the corresponding record
fragment; and the author list is replaced by the rendered fragments of
the matched entries while exactly the unmatched entries are appended
verbatim to the manual-action bucket. -/
theorem claim_C5 (W : Char → Bool)
    (hWlt : W '<' = false) (hWgt : W '>' = false) (hWnl : W '\n' = false) :
    (∀ (n e tail : List Char), n ≠ [] → n.all (isNameCharW W) = true →
      e ≠ [] → e.all (isEmailCharW W) = true → tail = [] ∨ tail = ['\n'] →
      classifyAuthorW W (String.mk (n ++ ' ' :: '<' :: (e ++ '>' :: tail))) =
        some ("\x7bname = \"" ++ String.mk n ++ "\", email = \"" ++ String.mk e ++ "\"\x7d")) ∧
    (∀ (e tail : List Char), e ≠ [] → e.all (isEmailCharW W) = true →
      tail = [] ∨ tail = ['\n'] →
      classifyAuthorW W (String.mk ('<' :: (e ++ '>' :: tail))) =
        some ("\x7bemail = \"" ++ String.mk e ++ "\"\x7d")) ∧
    (∀ (n tail : List Char), n ≠ [] → n.all (isNameCharW W) = true →
      tail = [] ∨ tail = ['\n'] →
      classifyAuthorW W (String.mk (n ++ tail)) =
        some ("\x7bname = \"" ++ String.mk n ++ "\"\x7d")) ∧
    (∀ (project : List (String × Toml)) (l : List String),
      lookupD project "authors" = some (Toml.arr (l.map Toml.str)) → l ≠ [] →
      lookupD project "authors_manual_action_and_delete" = none →
      authorsW W [("project", Toml.table project)] =
        Except.ok [("project", Toml.table
          (insertD (eraseD
            (if l.filter (fun s => (classifyAuthorW W s).isNone) = [] then project
             else insertD project "authors_manual_action_and_delete"
               (Toml.arr ((l.filter (fun s => (classifyAuthorW W s).isNone)).map Toml.str)))
            "authors") "authors"
            (Toml.str ("[" ++ String.intercalate ", "
              (l.filterMap (classifyAuthorW W)) ++ "]"))))]) := by
  refine ⟨classifyW_userEmail W hWlt hWgt, classifyW_onlyEmail W hWgt,
    classifyW_onlyUser W hWlt hWnl, ?_⟩
  intro project l ha hl hb
  have hdoc : lookupD [("project", Toml.table project)] "project" =
      some (Toml.table project) := rfl
  have htr : pyTruthy (some (Toml.arr (l.map Toml.str))) = true := by
    cases l with
    | nil => exact absurd rfl hl
    | cons a b => rfl
  simp only [authorsW, hdoc, ha, htr, authorsLoopW_map_str, List.nil_append, if_pos]
  by_cases hadds : l.filter (fun s => (classifyAuthorW W s).isNone) = []
  · rw [if_pos hadds, if_pos hadds]
    rfl
  · rw [if_neg hadds, if_neg hadds, hb]
    rfl

/-- C5 witness: the theorem applied at the ASCII instance of the
word-character class and at concrete entries — `Jane <j@x.co>`,
`<j@x.co>` with a trailing newline, `Bob`, and an author list
containing only the unparseable entry `Bob!!`. -/
theorem claim_C5_witness :
    classifyAuthor (String.mk (['J', 'a', 'n', 'e'] ++ ' ' :: '<' ::
        (['j', '@', 'x', '.', 'c', 'o'] ++ '>' :: []))) =
      some ("\x7bname = \"" ++ String.mk ['J', 'a', 'n', 'e'] ++ "\", email = \"" ++
        String.mk ['j', '@', 'x', '.', 'c', 'o'] ++ "\"\x7d") ∧
    classifyAuthor (String.mk ('<' :: (['j', '@', 'x', '.', 'c', 'o'] ++ '>' :: ['\n']))) =
      some ("\x7bemail = \"" ++ String.mk ['j', '@', 'x', '.', 'c', 'o'] ++ "\"\x7d") ∧
    classifyAuthor (String.mk (['B', 'o', 'b'] ++ [])) =
      some ("\x7bname = \"" ++ String.mk ['B', 'o', 'b'] ++ "\"\x7d") ∧
    authors [("project", Toml.table [("authors", Toml.arr [Toml.str "Bob!!"])])] =
      Except.ok [("project", Toml.table
        [("authors_manual_action_and_delete", Toml.arr [Toml.str "Bob!!"]),
         ("authors", Toml.str "[]")])] := by
  refine ⟨?_, ?_, ?_, ?_⟩
  · exact (claim_C5 isWordChar (by decide) (by decide) (by decide)).1
      ['J', 'a', 'n', 'e'] ['j', '@', 'x', '.', 'c', 'o'] []
      (by decide) (by decide) (by decide) (by decide) (Or.inl rfl)
  · exact (claim_C5 isWordChar (by decide) (by decide) (by decide)).2.1
      ['j', '@', 'x', '.', 'c', 'o'] ['\n']
      (by decide) (by decide) (Or.inr rfl)
  · exact (claim_C5 isWordChar (by decide) (by decide) (by decide)).2.2.1
      ['B', 'o', 'b'] [] (by decide) (by decide) (Or.inl rfl)
  · exact (claim_C5 isWordChar (by decide) (by decide) (by decide)).2.2.2
      [("authors", Toml.arr [Toml.str "Bob!!"])] ["Bob!!"]
      rfl (by decide) rfl
/-! ## `python_version` (lines 71–79) -/

/-- `python_version`: `uv_toml["project"]["dependencies"]` is a plain
subscript, so a project section without a `dependencies` key raises
`KeyError` (and a non-table value fails on `.get`).  A falsy or absent
`python` entry prints a diagnostic and leaves the document unchanged;
otherwise the translated constraint is stored under `requires-python`
and the `python` entry is deleted from the dependencies table. -/
def python_version (uv_toml : List (String × Toml)) : Except PyErr (List (String × Toml)) :=
  match lookupD uv_toml "project" with
  | none => .error .keyError
  | some (.table project) =>
    match lookupD project "dependencies" with
    | none => .error .keyError
    | some (.table deps) =>
      if pyTruthy (lookupD deps "python") then
        match lookupD deps "python" with
        | some pv =>
          match pyVersionConversion pv with
          | .error e => .error e
          | .ok cv =>
            .ok (insertD uv_toml "project" (.table
              (insertD (insertD project "requires-python" (.str cv))
                "dependencies" (.table (eraseD deps "python")))))
        | none => .error .keyError
      else
        .ok uv_toml
    | some _ => .error .attributeError
  | some _ => .error .attributeError

/-! ## `project_license` (lines 157–160) -/

/-- `project_license`: a truthy plain-string license is replaced by
`{text: <string>}`; anything else is left alone. -/
def project_license (uv_toml : List (String × Toml)) : Except PyErr (List (String × Toml)) :=
  match lookupD uv_toml "project" with
  | none => .error .keyError
  | some (.table project) =>
    if pyTruthy (lookupD project "license") then
      match lookupD project "license" with
      | some (.str s) =>
        .ok (insertD uv_toml "project" (.table
          (insertD project "license" (.table [("text", .str s)]))))
      | _ => .ok uv_toml
    else .ok uv_toml
  | some _ => .error .attributeError

/-! ## `dev_dependencies` (lines 82–100) -/

/-- The chained `project.get("group", {}).get("dev", {}).get(key, …)`
of lines 84–91: a missing link returns the falsy default, a non-dict
link fails on `.get` with `AttributeError`. -/
def getGroupDev (project : List (String × Toml)) (key : String) : Except PyErr (Option Toml) :=
  match lookupD project "group" with
  | none => .ok none
  | some (.table g) =>
    match lookupD g "dev" with
    | none => .ok none
    | some (.table d) => .ok (lookupD d key)
    | some _ => .error .attributeError
  | some _ => .error .attributeError

/-- `dev_dependencies` (lines 82–100): a falsy dev-dependency table is
a no-op.  Otherwise the table is run through `parse_packages` — the
call on line 96 omits the third argument, so the optional entries land
in the module-level mutable default dict of `parse_packages`, which no
code ever reads; passing a fresh dict and discarding its final value
is observationally the same, and is how it is modelled here.  The
truthy `group.dev.optional` flag only triggers a diagnostic print and
is not modelled.  The result is stored as the top-level
`dependency-groups = {dev: …}`, `group.dev` is deleted, and an
emptied `group` is deleted too. -/
def dev_dependencies (uv_toml : List (String × Toml)) : Except PyErr (List (String × Toml)) :=
  match lookupD uv_toml "project" with
  | none => .error .keyError
  | some (.table project) =>
    match getGroupDev project "dependencies" with
    | .error e => .error e
    | .ok depsOpt =>
      if pyTruthy depsOpt then
        match depsOpt with
        | some (.table deps) =>
          match parse_packages deps [] [] with
          | .error e => .error e
          | .ok (uv_deps, _) =>
            let top1 := insertD uv_toml "dependency-groups"
              (.table [("dev", .arr (uv_deps.map .str))])
            match lookupD project "group" with
            | some (.table g) =>
              let g1 := eraseD g "dev"
              let project1 := if g1.isEmpty then eraseD project "group"
                              else insertD project "group" (.table g1)
              .ok (insertD top1 "project" (.table project1))
            | _ => .error .keyError
        | some _ => .error .attributeError
        | none => .error .attributeError
      else
        .ok uv_toml
  | some _ => .error .attributeError

/-! ## `dependencies` (lines 122–136) -/

/-- The list comprehension `[f"{x}{uv_deps_optional[x]}" for x in deps]`
of line 135: the first name missing from the optional side-mapping
raises `KeyError`; a bool element is hashable but is never among the
string keys (`KeyError` too), while a list or dict element is
unhashable (`TypeError`). -/
def extrasGroupList (opt : List (String × String)) :
    List Toml → Except PyErr (List String)
  | [] => .ok []
  | x :: rest =>
    match x with
    | .str nm =>
      match lookupD opt nm with
      | none => .error .keyError
      | some cv =>
        match extrasGroupList opt rest with
        | .error e => .error e
        | .ok tl => .ok ((nm ++ cv) :: tl)
    | .bool _ => .error .keyError
    | _ => .error .typeError

/-- The `for extra, deps in … .items()` loop of lines 134–135,
building `optional_deps` group by group (a group value is iterated: a
list element-wise, a string character-wise, a dict over its keys,
anything else raises `TypeError`). -/
def extrasGroups (opt : List (String × String)) :
    List (String × Toml) → List (String × Toml) → Except PyErr (List (String × Toml))
  | [], acc => .ok acc
  | (gname, gval) :: rest, acc =>
    match
      (match gval with
       | .arr elems => Except.ok elems
       | .str s => Except.ok (s.data.map fun ch => Toml.str (String.mk [ch]))
       | .table m => Except.ok (m.map fun (kv : String × Toml) => Toml.str kv.1)
       | .bool _ => (Except.error .typeError : Except PyErr (List Toml))) with
    | .error e => .error e
    | .ok elems =>
      match extrasGroupList opt elems with
      | .error e => .error e
      | .ok ss => extrasGroups opt rest (insertD acc gname (.arr (ss.map .str)))

/-- `dependencies` (lines 122–136): a falsy dependency table is a
no-op; otherwise the table is partitioned with a fresh optional
side-mapping, the main list replaces `project["dependencies"]`, and —
only when the side-mapping is non-empty — `extras` is popped (with a
`{}` default) and regrouped into `optional-dependencies`. -/
def dependencies (uv_toml : List (String × Toml)) : Except PyErr (List (String × Toml)) :=
  match lookupD uv_toml "project" with
  | none => .error .keyError
  | some (.table project) =>
    let depsOpt := lookupD project "dependencies"
    if pyTruthy depsOpt then
      match depsOpt with
      | some (.table deps) =>
        match parse_packages deps [] [] with
        | .error e => .error e
        | .ok (uv_deps, uv_deps_optional) =>
          let project1 := insertD project "dependencies" (.arr (uv_deps.map .str))
          if uv_deps_optional.isEmpty then
            .ok (insertD uv_toml "project" (.table project1))
          else
            match lookupD project1 "extras" with
            | none =>
              .ok (insertD uv_toml "project" (.table
                (insertD project1 "optional-dependencies" (.table []))))
            | some (.table ex) =>
              match extrasGroups uv_deps_optional ex [] with
              | .error e => .error e
              | .ok optional_deps =>
                .ok (insertD uv_toml "project" (.table
                  (insertD (eraseD project1 "extras")
                    "optional-dependencies" (.table optional_deps))))
            | some _ => .error .attributeError
      | some _ => .error .attributeError
      | none => .error .attributeError
    else .ok uv_toml
  | some _ => .error .attributeError

/-! ## `tools` (lines 139–144) -/

/-- The copying loop of `tools`: every key of the source tool section
except `poetry` is assigned, unmodified, into the accumulating target
tool section. -/
def toolsFold : List (String × Toml) → List (String × Toml) → List (String × Toml)
  | acc, [] => acc
  | acc, (tname, data) :: rest =>
    if tname = "poetry" then toolsFold acc rest
    else toolsFold (insertD acc tname data) rest

/-- `tools` (lines 139–144): iterates `pyproject_data["tool"]`
(`KeyError` when absent, `AttributeError` on `.items()` of a
non-dict) and copies every non-`poetry` key into `uv_toml["tool"]`. -/
def tools (uv_toml pyproject_data : List (String × Toml)) :
    Except PyErr (List (String × Toml)) :=
  match lookupD pyproject_data "tool" with
  | none => .error .keyError
  | some (.table tool_table) =>
    match lookupD uv_toml "tool" with
    | none => .error .keyError
    | some (.table uvtool) =>
      .ok (insertD uv_toml "tool" (.table (toolsFold uvtool tool_table)))
    | some _ => .error .typeError
  | some _ => .error .attributeError

/-! ## The assembler pipeline of `main` (lines 176–184) -/

/-- The in-memory transformation of `main` between `toml.load` and
`toml.dumps`: `uv_toml` is seeded with an empty `tool` table and, as
`project`, the source document's `tool.poetry` table (line 177 —
note that in Python this is the same dict object, not a copy), then
the six transformation passes run in their fixed order. -/
def runPipeline (pyproject_data : List (String × Toml)) :
    Except PyErr (List (String × Toml)) :=
  match lookupD pyproject_data "tool" with
  | none => .error .keyError
  | some (.table tool_table) =>
    match lookupD tool_table "poetry" with
    | none => .error .keyError
    | some poetry =>
      match authors [("tool", Toml.table []), ("project", poetry)] with
      | .error e => .error e
      | .ok uv1 =>
        match project_license uv1 with
        | .error e => .error e
        | .ok uv2 =>
          match python_version uv2 with
          | .error e => .error e
          | .ok uv3 =>
            match dev_dependencies uv3 with
            | .error e => .error e
            | .ok uv4 =>
              match dependencies uv4 with
              | .error e => .error e
              | .ok uv5 => tools uv5 pyproject_data
  | some _ => .error .typeError

/-- The pipeline together with the final state of the source document:
because line 177 stores `pyproject_data["tool"]["poetry"]` itself (no
copy) as `uv_toml["project"]`, every in-place mutation of the target's
project section is a mutation of the source document's `tool.poetry`
subtree; after the run, the loaded source tree is the original with
`tool.poetry` replaced by the final target project section. -/
def runAliased (pyproject_data : List (String × Toml)) :
    Except PyErr (List (String × Toml) × List (String × Toml)) :=
  match runPipeline pyproject_data with
  | .error e => .error e
  | .ok uv =>
    match lookupD uv "project", lookupD pyproject_data "tool" with
    | some proj, some (.table tool_table) =>
      .ok (uv, insertD pyproject_data "tool" (.table (insertD tool_table "poetry" proj)))
    | _, _ => .error .keyError

/-! ### Lookup/insert lemmas for the association-list dict model -/

/-- Looking up the key just inserted. -/
theorem lookupD_insertD_self {α : Type} (d : List (String × α)) (k : String) (v : α) :
    lookupD (insertD d k v) k = some v := by
  induction d with
  | nil => simp [insertD, lookupD]
  | cons p rest ih =>
    obtain ⟨k0, w⟩ := p
    by_cases h : k0 = k
    · subst h
      simp [insertD, lookupD]
    · simp [insertD, lookupD, h, ih]

/-- Inserting one key does not change the lookup of another. -/
theorem lookupD_insertD_ne {α : Type} (d : List (String × α)) (k k' : String) (v : α)
    (h : k' ≠ k) : lookupD (insertD d k v) k' = lookupD d k' := by
  induction d with
  | nil =>
    simp only [insertD, lookupD]
    rw [if_neg (fun hc => h hc.symm)]
  | cons p rest ih =>
    obtain ⟨k0, w⟩ := p
    by_cases h0 : k0 = k
    · subst h0
      simp only [insertD, if_pos rfl, lookupD]
      rw [if_neg (fun hc => h hc.symm), if_neg (fun hc => h hc.symm)]
    · simp [insertD, lookupD, h0, ih]

/-! ## Claims C7, C3 and C8 -/

/-- C7 counterexample: a target document whose project section lacks a
`dependencies` table certainly lacks a `python` pseudo-dependency, yet
`python_version` is fatal on it — `uv_toml["project"]["dependencies"]`
raises `KeyError` instead of the claimed diagnostic no-op. -/
theorem claim_C7_counterexample :
    python_version [("tool", Toml.table []), ("project", Toml.table [])] =
      Except.error PyErr.keyError ∧
    (Except.error PyErr.keyError ≠
      (Except.ok [("tool", Toml.table []), ("project", Toml.table [])] :
        Except PyErr (List (String × Toml)))) :=
  ⟨rfl, fun h => Except.noConfusion h⟩

/-- C7 (amended): `python_version` is non-fatal only when the project
section has a dependencies table and that table lacks a `python`
entry; then it prints a diagnostic and returns the document unchanged,
with no `requires-python` added and no error.  (When the dependencies
table itself is missing, it raises `KeyError`.) -/
theorem claim_C7 (uv_toml project deps : List (String × Toml))
    (hp : lookupD uv_toml "project" = some (Toml.table project))
    (hd : lookupD project "dependencies" = some (Toml.table deps))
    (hpy : lookupD deps "python" = none) :
    python_version uv_toml = Except.ok uv_toml := by
  simp only [python_version, hp, hd, hpy]
  rw [if_neg (by decide)]

/-- C7 witness: the amended theorem applied to a project whose
dependencies table has no `python` entry. -/
theorem claim_C7_witness :
    python_version [("project", Toml.table [("dependencies",
        Toml.table [("requests", Toml.str "^2.0")])])] =
      Except.ok [("project", Toml.table [("dependencies",
        Toml.table [("requests", Toml.str "^2.0")])])] :=
  claim_C7 _ [("dependencies", Toml.table [("requests", Toml.str "^2.0")])]
    [("requests", Toml.str "^2.0")] rfl rfl rfl

/-- The poetry section of the minimal end-to-end source document of
C3: only a dependency table with the interpreter pseudo-dependency and
one package. -/
def poetrySection : List (String × Toml) :=
  [("dependencies", Toml.table
    [("python", Toml.str "^3.10"), ("requests", Toml.str "^2.0")])]

/-- The minimal end-to-end source document of C3. -/
def minimalPoetryDoc : List (String × Toml) :=
  [("tool", Toml.table [("poetry", Toml.table poetrySection)])]

/-- The project section the pipeline produces from
`minimalPoetryDoc`. -/
def pipelineProject : List (String × Toml) :=
  [("dependencies", Toml.arr [Toml.str "requests>=2.0"]),
   ("authors", Toml.str "[\x7bname = \"example\", email = \"example@email.com\"\x7d]"),
   ("requires-python", Toml.str ">=3.10")]

/-- C3: the fixed pipeline on the minimal source document yields
`requires-python = ">=3.10"`, `dependencies = ["requests>=2.0"]` and
the single placeholder author record (held, per the serialization
quirk of the code, as the pre-formatted string
`[{name = "example", email = "example@email.com"}]` that the final
text patch rewrites into a true inline record array). -/
theorem claim_C3 :
    runPipeline minimalPoetryDoc =
      Except.ok [("tool", Toml.table []), ("project", Toml.table pipelineProject)] ∧
    lookupD pipelineProject "requires-python" = some (Toml.str ">=3.10") ∧
    lookupD pipelineProject "dependencies" = some (Toml.arr [Toml.str "requests>=2.0"]) ∧
    lookupD pipelineProject "authors" =
      some (Toml.str "[\x7bname = \"example\", email = \"example@email.com\"\x7d]") :=
  ⟨rfl, rfl, rfl, rfl⟩

/-- The state of the loaded source document after the pipeline has run
on `minimalPoetryDoc` (its `tool.poetry` subtree is the mutated
project section). -/
def mutatedSource : List (String × Toml) :=
  [("tool", Toml.table [("poetry", Toml.table pipelineProject)])]

/-- A probe reading `tool.poetry.requires-python` of a document, used
to exhibit that the source tree changed. -/
def probeReqPy (d : List (String × Toml)) : Option Toml :=
  match lookupD d "tool" with
  | some (.table t) =>
    match lookupD t "poetry" with
    | some (.table p) => lookupD p "requires-python"
    | _ => none
  | _ => none

/-- C8 counterexample: running the pipeline on the minimal document
mutates the loaded source tree — afterwards its `tool.poetry` subtree
is the transformed project section (it now has `requires-python`,
its dependency table became a list, and an authors string appeared),
so the source document is not immutable. -/
theorem claim_C8_counterexample :
    runAliased minimalPoetryDoc =
      Except.ok ([("tool", Toml.table []), ("project", Toml.table pipelineProject)],
        mutatedSource) ∧
    mutatedSource ≠ minimalPoetryDoc := by
  refine ⟨rfl, ?_⟩
  intro h
  have h2 := congrArg probeReqPy h
  rw [show probeReqPy mutatedSource = some (Toml.str ">=3.10") from rfl,
    show probeReqPy minimalPoetryDoc = none from rfl] at h2
  exact Option.noConfusion h2

/-- C8 (amended): the source document is not copied — line 177 makes
the target's project section the very `tool.poetry` dict of the
source — so after a successful run the loaded source tree is the
original with `tool.poetry` replaced by the final target project
section: `tool.poetry` now holds that section, while every top-level
key other than `tool` and every `tool` key other than `poetry` is
unchanged. -/
theorem claim_C8 (p tt uv src' : List (String × Toml)) (proj : Toml)
    (hp : lookupD p "tool" = some (Toml.table tt))
    (hr : runAliased p = Except.ok (uv, src'))
    (hproj : lookupD uv "project" = some proj) :
    lookupD src' "tool" = some (Toml.table (insertD tt "poetry" proj)) ∧
    (∀ k, k ≠ "tool" → lookupD src' k = lookupD p k) ∧
    (∀ k, k ≠ "poetry" → lookupD (insertD tt "poetry" proj) k = lookupD tt k) ∧
    lookupD (insertD tt "poetry" proj) "poetry" = some proj := by
  have hrr := hr
  unfold runAliased at hrr
  cases hrp : runPipeline p with
  | error e =>
    rw [hrp] at hrr
    exact Except.noConfusion hrr
  | ok uv0 =>
    rw [hrp] at hrr
    have hr2 : (match lookupD uv0 "project", lookupD p "tool" with
        | some proj1, some (.table tt1) =>
          Except.ok (uv0, insertD p "tool" (Toml.table (insertD tt1 "poetry" proj1)))
        | _, _ => (Except.error PyErr.keyError :
            Except PyErr (List (String × Toml) × List (String × Toml)))) =
        Except.ok (uv, src') := hrr
    cases hl : lookupD uv0 "project" with
    | none =>
      rw [hl, hp] at hr2
      exact Except.noConfusion hr2
    | some proj0 =>
      rw [hl, hp] at hr2
      have hr' : (Except.ok (uv0, insertD p "tool" (Toml.table (insertD tt "poetry" proj0))) :
          Except PyErr (List (String × Toml) × List (String × Toml))) =
          Except.ok (uv, src') := hr2
      injection hr' with hpair
      injection hpair with hu hs
      subst hu
      subst hs
      rw [hl] at hproj
      injection hproj with hpp
      subst hpp
      refine ⟨lookupD_insertD_self .., ?_, ?_, lookupD_insertD_self ..⟩
      · intro k hk
        exact lookupD_insertD_ne _ _ _ _ hk
      · intro k hk
        exact lookupD_insertD_ne _ _ _ _ hk

/-- C8 witness: the amended theorem applied to the minimal document,
probing an untouched top-level key and an untouched tool key. -/
theorem claim_C8_witness :
    lookupD mutatedSource "tool" =
      some (Toml.table (insertD [("poetry", Toml.table poetrySection)] "poetry"
        (Toml.table pipelineProject))) ∧
    lookupD mutatedSource "build-system" = lookupD minimalPoetryDoc "build-system" ∧
    lookupD (insertD [("poetry", Toml.table poetrySection)] "poetry"
      (Toml.table pipelineProject)) "black" =
      lookupD [("poetry", Toml.table poetrySection)] "black" ∧
    lookupD (insertD [("poetry", Toml.table poetrySection)] "poetry"
      (Toml.table pipelineProject)) "poetry" = some (Toml.table pipelineProject) := by
  have h := claim_C8 minimalPoetryDoc [("poetry", Toml.table poetrySection)]
    [("tool", Toml.table []), ("project", Toml.table pipelineProject)] mutatedSource
    (Toml.table pipelineProject) rfl rfl rfl
  exact ⟨h.1, h.2.1 "build-system" (by decide), h.2.2.1 "black" (by decide), h.2.2.2⟩

/-! ## Claim C9 — the Foreign-Tool Passthrough (`tools`) -/

/-- Looking up a key absent from a prefix skips the prefix. -/
theorem lookupD_append_none {α : Type} (a b : List (String × α)) (k : String)
    (ha : lookupD a k = none) : lookupD (a ++ b) k = lookupD b k := by
  induction a with
  | nil => simp
  | cons p rest ih =>
    obtain ⟨k0, w⟩ := p
    simp only [lookupD, List.cons_append] at ha ⊢
    by_cases h0 : k0 = k
    · rw [if_pos h0] at ha
      exact Option.noConfusion ha
    · rw [if_neg h0] at ha ⊢
      exact ih ha

/-- Inserting an absent key appends it. -/
theorem insertD_append_of_absent {α : Type} (d : List (String × α)) (k : String) (v : α)
    (h : lookupD d k = none) : insertD d k v = d ++ [(k, v)] := by
  induction d with
  | nil => rfl
  | cons p rest ih =>
    obtain ⟨k0, w⟩ := p
    simp only [lookupD] at h
    by_cases h0 : k0 = k
    · rw [if_pos h0] at h
      exact Option.noConfusion h
    · rw [if_neg h0] at h
      simp only [insertD, if_neg h0, List.cons_append]
      rw [ih h]

/-- The copying loop of `tools`, run over a tool section with no
`poetry` key, pairwise-distinct keys, all absent from the accumulator,
appends that section unchanged. -/
theorem toolsFold_append (tt : List (String × Toml)) :
    ∀ acc : List (String × Toml),
      lookupD tt "poetry" = none →
      (tt.map Prod.fst).Nodup →
      (∀ p ∈ tt, lookupD acc p.1 = none) →
      toolsFold acc tt = acc ++ tt := by
  induction tt with
  | nil => intro acc _ _ _; simp [toolsFold]
  | cons p rest ih =>
    intro acc hpo hnd hdisj
    obtain ⟨k, v⟩ := p
    have hk : k ≠ "poetry" := by
      intro hcontra
      subst hcontra
      simp only [lookupD, if_pos rfl] at hpo
      exact Option.noConfusion hpo
    have hpo' : lookupD rest "poetry" = none := by
      simp only [lookupD, if_neg hk] at hpo
      exact hpo
    have hnd' : (rest.map Prod.fst).Nodup := (List.nodup_cons.mp hnd).2
    have hknotin : k ∉ rest.map Prod.fst := (List.nodup_cons.mp hnd).1
    simp only [toolsFold, if_neg hk]
    rw [insertD_append_of_absent acc k v (hdisj (k, v) (List.mem_cons_self ..))]
    rw [ih (acc ++ [(k, v)]) hpo' hnd' ?_]
    · simp
    · intro q hq
      rw [lookupD_append_none _ _ _ (hdisj q (List.mem_cons_of_mem _ hq))]
      simp only [lookupD]
      rw [if_neg]
      intro hcontra
      subst hcontra
      exact hknotin (List.mem_map.mpr ⟨q, hq, rfl⟩)

/-- C9: when the source tool-configuration section has no `poetry`
subsection (and, as for any Python dict, its keys are pairwise
distinct), running the passthrough against a target with an empty tool
section reproduces the source tool section exactly — every key copied
unmodified, values untouched. -/
theorem claim_C9 (uv_toml pyproject_data tt : List (String × Toml))
    (huv : lookupD uv_toml "tool" = some (Toml.table []))
    (hpt : lookupD pyproject_data "tool" = some (Toml.table tt))
    (hpo : lookupD tt "poetry" = none)
    (hnd : (tt.map Prod.fst).Nodup) :
    tools uv_toml pyproject_data = Except.ok (insertD uv_toml "tool" (Toml.table tt)) ∧
    lookupD (insertD uv_toml "tool" (Toml.table tt)) "tool" = some (Toml.table tt) := by
  constructor
  · simp only [tools, hpt, huv]
    rw [toolsFold_append tt [] hpo hnd (fun p _ => rfl)]
    rw [List.nil_append]
  · exact lookupD_insertD_self ..

/-- C9 witness: the passthrough applied to a tool section holding two
foreign tools and no `poetry` key. -/
theorem claim_C9_witness :
    tools [("tool", Toml.table []), ("project", Toml.table [])]
      [("tool", Toml.table [("black", Toml.table [("line-length", Toml.str "88")]),
        ("isort", Toml.bool true)])] =
      Except.ok [("tool", Toml.table [("black", Toml.table [("line-length", Toml.str "88")]),
        ("isort", Toml.bool true)]), ("project", Toml.table [])] :=
  (claim_C9 [("tool", Toml.table []), ("project", Toml.table [])]
    [("tool", Toml.table [("black", Toml.table [("line-length", Toml.str "88")]),
      ("isort", Toml.bool true)])]
    [("black", Toml.table [("line-length", Toml.str "88")]), ("isort", Toml.bool true)]
    rfl rfl rfl (by decide)).1

/-! ## Claim C6 — the Optional-Dependency Grouper (`dependencies`) -/

/-- Over a group whose elements are all strings, the comprehension of
line 135 either succeeds or raises `KeyError` — no other error. -/
theorem extrasGroupList_ok_or_key (opt : List (String × String)) (elems : List Toml)
    (h : ∀ x ∈ elems, ∃ nm, x = Toml.str nm) :
    extrasGroupList opt elems = .error .keyError ∨
      ∃ ss, extrasGroupList opt elems = .ok ss := by
  induction elems with
  | nil => exact Or.inr ⟨[], rfl⟩
  | cons x rest ih =>
    obtain ⟨nm, rfl⟩ := h x (List.mem_cons_self ..)
    cases hlk : lookupD opt nm with
    | none => exact Or.inl (by simp [extrasGroupList, hlk])
    | some cv =>
      rcases ih (fun y hy => h y (List.mem_cons_of_mem _ hy)) with he | ⟨ss, hok⟩
      · exact Or.inl (by simp [extrasGroupList, hlk, he])
      · exact Or.inr ⟨(nm ++ cv) :: ss, by simp [extrasGroupList, hlk, hok]⟩

/-- A listed name missing from the optional side-mapping makes the
comprehension raise `KeyError`. -/
theorem extrasGroupList_missing (opt : List (String × String)) (elems : List Toml)
    (hstr : ∀ x ∈ elems, ∃ nm, x = Toml.str nm)
    (hmiss : ∃ nm, Toml.str nm ∈ elems ∧ lookupD opt nm = none) :
    extrasGroupList opt elems = .error .keyError := by
  induction elems with
  | nil =>
    obtain ⟨nm, hmem, _⟩ := hmiss
    exact absurd hmem (List.not_mem_nil _)
  | cons x rest ih =>
    obtain ⟨nm0, rfl⟩ := hstr x (List.mem_cons_self ..)
    cases hlk : lookupD opt nm0 with
    | none => simp [extrasGroupList, hlk]
    | some cv =>
      obtain ⟨nm, hmem, hnone⟩ := hmiss
      rcases List.mem_cons.mp hmem with heq | hmem2
      · injection heq with h1
        subst h1
        rw [hnone] at hlk
        exact Option.noConfusion hlk
      · have hrest := ih (fun y hy => hstr y (List.mem_cons_of_mem _ hy)) ⟨nm, hmem2, hnone⟩
        simp [extrasGroupList, hlk, hrest]

/-- With every listed name present, the comprehension succeeds. -/
theorem extrasGroupList_all (opt : List (String × String)) (elems : List Toml)
    (h : ∀ x ∈ elems, ∃ nm cv, x = Toml.str nm ∧ lookupD opt nm = some cv) :
    ∃ ss, extrasGroupList opt elems = .ok ss := by
  induction elems with
  | nil => exact ⟨[], rfl⟩
  | cons x rest ih =>
    obtain ⟨nm, cv, rfl, hlk⟩ := h x (List.mem_cons_self ..)
    obtain ⟨ss, hok⟩ := ih (fun y hy => h y (List.mem_cons_of_mem _ hy))
    exact ⟨(nm ++ cv) :: ss, by simp [extrasGroupList, hlk, hok]⟩

/-- When every extras group is a list of package-name strings and some
listed package was never marked optional, the grouping loop raises
`KeyError` (the spec-level `InconsistentExtrasMapping`). -/
theorem extrasGroups_missing (opt : List (String × String)) (ex : List (String × Toml)) :
    (∀ gv ∈ ex, ∃ elems, gv.2 = Toml.arr elems ∧ ∀ x ∈ elems, ∃ nm, x = Toml.str nm) →
    (∃ gv ∈ ex, ∃ elems, gv.2 = Toml.arr elems ∧
      ∃ nm, Toml.str nm ∈ elems ∧ lookupD opt nm = none) →
    ∀ acc, extrasGroups opt ex acc = .error .keyError := by
  induction ex with
  | nil =>
    intro _ hmiss _
    obtain ⟨gv, hmem, _⟩ := hmiss
    exact absurd hmem (List.not_mem_nil _)
  | cons g rest ih =>
    intro hwf hmiss acc
    obtain ⟨gname, gval⟩ := g
    obtain ⟨elems0, hv0, hstr0⟩ := hwf (gname, gval) (List.mem_cons_self ..)
    simp only at hv0
    subst hv0
    rcases extrasGroupList_ok_or_key opt elems0 hstr0 with herr | ⟨ss, hok⟩
    · simp [extrasGroups, herr]
    · obtain ⟨gv, hmem, elems, hveq, nm, hnmmem, hnone⟩ := hmiss
      rcases List.mem_cons.mp hmem with heq | hmem2
      · subst heq
        simp only at hveq
        injection hveq with he
        subst he
        have := extrasGroupList_missing opt elems0 hstr0 ⟨nm, hnmmem, hnone⟩
        rw [this] at hok
        exact Except.noConfusion hok
      · have hrest := ih (fun q hq => hwf q (List.mem_cons_of_mem _ hq))
          ⟨gv, hmem2, elems, hveq, nm, hnmmem, hnone⟩
          (insertD acc gname (Toml.arr (ss.map Toml.str)))
        simp [extrasGroups, hok, hrest]

/-- When every extras group is a list of names all present in the
optional side-mapping, the grouping loop succeeds. -/
theorem extrasGroups_all (opt : List (String × String)) (ex : List (String × Toml)) :
    (∀ gv ∈ ex, ∃ elems, gv.2 = Toml.arr elems ∧
      ∀ x ∈ elems, ∃ nm cv, x = Toml.str nm ∧ lookupD opt nm = some cv) →
    ∀ acc, ∃ od, extrasGroups opt ex acc = .ok od := by
  induction ex with
  | nil => exact fun _ acc => ⟨acc, rfl⟩
  | cons g rest ih =>
    intro hall acc
    obtain ⟨gname, gval⟩ := g
    obtain ⟨elems0, hv0, hpres0⟩ := hall (gname, gval) (List.mem_cons_self ..)
    simp only at hv0
    subst hv0
    obtain ⟨ss, hok⟩ := extrasGroupList_all opt elems0 hpres0
    obtain ⟨od, hod⟩ := ih (fun q hq => hall q (List.mem_cons_of_mem _ hq))
      (insertD acc gname (Toml.arr (ss.map Toml.str)))
    exact ⟨od, by simp [extrasGroups, hok, hod]⟩

/-- C6: after a completed main dependency pass with a non-empty
optional side-mapping, an extras declaration (a table of string-array
groups) naming a package never marked optional makes `dependencies`
end in the `KeyError`-class error (`InconsistentExtrasMapping`), which
propagates to the caller as the function's result; with every listed
package marked optional, the function succeeds instead. -/
theorem claim_C6 :
    (∀ (uv_toml project deps : List (String × Toml)) (uv_deps : List String)
       (opt : List (String × String)) (ex : List (String × Toml)),
      lookupD uv_toml "project" = some (Toml.table project) →
      lookupD project "dependencies" = some (Toml.table deps) →
      deps ≠ [] →
      parse_packages deps [] [] = Except.ok (uv_deps, opt) →
      opt ≠ [] →
      lookupD project "extras" = some (Toml.table ex) →
      (∀ gv ∈ ex, ∃ elems, gv.2 = Toml.arr elems ∧ ∀ x ∈ elems, ∃ nm, x = Toml.str nm) →
      (∃ gv ∈ ex, ∃ elems, gv.2 = Toml.arr elems ∧
        ∃ nm, Toml.str nm ∈ elems ∧ lookupD opt nm = none) →
      dependencies uv_toml = Except.error PyErr.keyError) ∧
    (∀ (uv_toml project deps : List (String × Toml)) (uv_deps : List String)
       (opt : List (String × String)) (ex : List (String × Toml)),
      lookupD uv_toml "project" = some (Toml.table project) →
      lookupD project "dependencies" = some (Toml.table deps) →
      deps ≠ [] →
      parse_packages deps [] [] = Except.ok (uv_deps, opt) →
      opt ≠ [] →
      lookupD project "extras" = some (Toml.table ex) →
      (∀ gv ∈ ex, ∃ elems, gv.2 = Toml.arr elems ∧
        ∀ x ∈ elems, ∃ nm cv, x = Toml.str nm ∧ lookupD opt nm = some cv) →
      ∃ d', dependencies uv_toml = Except.ok d') := by
  constructor
  · intro uv_toml project deps uv_deps opt ex hp hd hdne hparse hone hex hwf hmiss
    have htr : (pyTruthy (some (Toml.table deps)) = true) = True := by
      cases deps with
      | nil => exact absurd rfl hdne
      | cons a b => simp [pyTruthy]
    have hoe : (opt.isEmpty = true) = False := by
      cases opt with
      | nil => exact absurd rfl hone
      | cons a b => simp
    have hex1 : lookupD (insertD project "dependencies"
        (Toml.arr (uv_deps.map Toml.str))) "extras" = some (Toml.table ex) := by
      rw [lookupD_insertD_ne _ _ _ _ (by decide)]
      exact hex
    have hgroups := extrasGroups_missing opt ex hwf hmiss []
    simp only [dependencies, hp, hd, htr, if_true, hparse, hoe, if_false, hex1, hgroups]
  · intro uv_toml project deps uv_deps opt ex hp hd hdne hparse hone hex hall
    have htr : (pyTruthy (some (Toml.table deps)) = true) = True := by
      cases deps with
      | nil => exact absurd rfl hdne
      | cons a b => simp [pyTruthy]
    have hoe : (opt.isEmpty = true) = False := by
      cases opt with
      | nil => exact absurd rfl hone
      | cons a b => simp
    have hex1 : lookupD (insertD project "dependencies"
        (Toml.arr (uv_deps.map Toml.str))) "extras" = some (Toml.table ex) := by
      rw [lookupD_insertD_ne _ _ _ _ (by decide)]
      exact hex
    obtain ⟨od, hod⟩ := extrasGroups_all opt ex hall []
    refine ⟨insertD uv_toml "project" (Toml.table
      (insertD (eraseD (insertD project "dependencies" (Toml.arr (uv_deps.map Toml.str)))
        "extras") "optional-dependencies" (Toml.table od))), ?_⟩
    simp only [dependencies, hp, hd, htr, if_true, hparse, hoe, if_false, hex1, hod]

/-- C6 witness: a dependency table marking `bar` optional, once with
an extras group naming the never-optional `baz` (KeyError) and once
naming `bar` itself (success). -/
theorem claim_C6_witness :
    dependencies [("project", Toml.table
      [("dependencies", Toml.table
         [("bar", Toml.table [("version", Toml.str "^2.0"), ("optional", Toml.bool true)])]),
       ("extras", Toml.table [("web", Toml.arr [Toml.str "baz"])])])] =
      Except.error PyErr.keyError ∧
    dependencies [("project", Toml.table
      [("dependencies", Toml.table
         [("bar", Toml.table [("version", Toml.str "^2.0"), ("optional", Toml.bool true)])]),
       ("extras", Toml.table [("web", Toml.arr [Toml.str "bar"])])])] ≠
      Except.error PyErr.keyError := by
  constructor
  · exact claim_C6.1
      [("project", Toml.table
        [("dependencies", Toml.table
           [("bar", Toml.table [("version", Toml.str "^2.0"), ("optional", Toml.bool true)])]),
         ("extras", Toml.table [("web", Toml.arr [Toml.str "baz"])])])]
      [("dependencies", Toml.table
         [("bar", Toml.table [("version", Toml.str "^2.0"), ("optional", Toml.bool true)])]),
       ("extras", Toml.table [("web", Toml.arr [Toml.str "baz"])])]
      [("bar", Toml.table [("version", Toml.str "^2.0"), ("optional", Toml.bool true)])]
      [] [("bar", ">=2.0")] [("web", Toml.arr [Toml.str "baz"])]
      rfl rfl (List.cons_ne_nil _ _) rfl (List.cons_ne_nil _ _) rfl
      (fun gv hgv => by
        have h1 := List.mem_singleton.mp hgv
        subst h1
        exact ⟨[Toml.str "baz"], rfl, fun x hx => ⟨"baz", List.mem_singleton.mp hx⟩⟩)
      ⟨("web", Toml.arr [Toml.str "baz"]), List.mem_singleton.mpr rfl,
        [Toml.str "baz"], rfl, "baz", List.mem_singleton.mpr rfl, rfl⟩
  · obtain ⟨d', hd'⟩ := claim_C6.2
      [("project", Toml.table
        [("dependencies", Toml.table
           [("bar", Toml.table [("version", Toml.str "^2.0"), ("optional", Toml.bool true)])]),
         ("extras", Toml.table [("web", Toml.arr [Toml.str "bar"])])])]
      [("dependencies", Toml.table
         [("bar", Toml.table [("version", Toml.str "^2.0"), ("optional", Toml.bool true)])]),
       ("extras", Toml.table [("web", Toml.arr [Toml.str "bar"])])]
      [("bar", Toml.table [("version", Toml.str "^2.0"), ("optional", Toml.bool true)])]
      [] [("bar", ">=2.0")] [("web", Toml.arr [Toml.str "bar"])]
      rfl rfl (List.cons_ne_nil _ _) rfl (List.cons_ne_nil _ _) rfl
      (fun gv hgv => by
        have h1 := List.mem_singleton.mp hgv
        subst h1
        exact ⟨[Toml.str "bar"], rfl,
          fun x hx => ⟨"bar", ">=2.0", List.mem_singleton.mp hx, rfl⟩⟩)
    rw [hd']
    exact fun h => Except.noConfusion h

/-! ## Claim C10 — optional entries in the Dev-Dependency Group Migrator -/

/-- The part of a partitioner result that `dev_dependencies` can
observe: the error, or the main list (the optional component of the
call on line 96 goes to the shared default dict, which is never
read). -/
def uvPart : Except PyErr (List String × List (String × String)) → Except PyErr (List String)
  | .error e => .error e
  | .ok (l, _) => .ok l

/-- The partitioner never reads the optional side-mapping, so the
observable part of its result does not depend on it. -/
theorem parse_uvPart_opt (deps : List (String × Toml)) :
    ∀ (uv : List String) (o1 o2 : List (String × String)),
      uvPart (parse_packages deps uv o1) = uvPart (parse_packages deps uv o2) := by
  induction deps with
  | nil => intro uv o1 o2; rfl
  | cons hd rest ih =>
    intro uv o1 o2
    obtain ⟨name, version⟩ := hd
    cases version with
    | table t =>
      simp only [parse_packages]
      by_cases hex : pyTruthy (lookupD t "extras") = true
      · rw [if_pos hex, if_pos hex]
        repeat' split
        all_goals first | rfl | exact ih _ _ _
      · rw [if_neg hex, if_neg hex]
        by_cases hop : pyTruthy (lookupD t "optional") = true
        · rw [if_pos hop, if_pos hop]
          repeat' split
          all_goals first | rfl | exact ih _ _ _
        · rw [if_neg hop, if_neg hop]
          repeat' split
          all_goals first | rfl | exact ih _ _ _
    | str s =>
      simp only [parse_packages]
      repeat' split
      all_goals first | rfl | exact ih _ _ _
    | bool b =>
      simp only [parse_packages]
      repeat' split
      all_goals first | rfl | exact ih _ _ _
    | arr l =>
      simp only [parse_packages]
      repeat' split
      all_goals first | rfl | exact ih _ _ _

/-- Removing an entry whose table has no `extras` key, a truthy
`optional` flag and a convertible `version` does not change the
observable (main-list) part of the partitioner's result. -/
theorem parse_uvPart_skip (name : String) (t : List (String × Toml))
    (hex : lookupD t "extras" = none)
    (hop : pyTruthy (lookupD t "optional") = true)
    (vs cv : String)
    (hver : lookupD t "version" = some (Toml.str vs))
    (hcv : version_conversion vs = Except.ok cv) :
    ∀ (pre post : List (String × Toml)) (uv : List String) (opt : List (String × String)),
      uvPart (parse_packages (pre ++ (name, Toml.table t) :: post) uv opt) =
        uvPart (parse_packages (pre ++ post) uv opt) := by
  intro pre
  induction pre with
  | nil =>
    intro post uv opt
    simp only [List.nil_append, parse_packages, hex, hop]
    rw [if_pos trivial, hver]
    simp only [pyVersionConversion, hcv]
    exact parse_uvPart_opt post uv (insertD opt name cv) opt
  | cons hd pre2 ih =>
    intro post uv opt
    obtain ⟨name0, version0⟩ := hd
    cases version0 with
    | table t0 =>
      simp only [List.cons_append, parse_packages]
      by_cases hex0 : pyTruthy (lookupD t0 "extras") = true
      · rw [if_pos hex0, if_pos hex0]
        repeat' split
        all_goals first | rfl | exact ih _ _ _
      · rw [if_neg hex0, if_neg hex0]
        by_cases hop0 : pyTruthy (lookupD t0 "optional") = true
        · rw [if_pos hop0, if_pos hop0]
          repeat' split
          all_goals first | rfl | exact ih _ _ _
        · rw [if_neg hop0, if_neg hop0]
          repeat' split
          all_goals first | rfl | exact ih _ _ _
    | str s =>
      simp only [List.cons_append, parse_packages]
      repeat' split
      all_goals first | rfl | exact ih _ _ _
    | bool b =>
      simp only [List.cons_append, parse_packages]
      repeat' split
      all_goals first | rfl | exact ih _ _ _
    | arr l =>
      simp only [List.cons_append, parse_packages]
      repeat' split
      all_goals first | rfl | exact ih _ _ _

/-- A document whose project section holds exactly a dev-dependency
group table `t` (the shape `dev_dependencies` consumes). -/
def devDoc (t : List (String × Toml)) : List (String × Toml) :=
  [("tool", Toml.table []),
   ("project", Toml.table [("group", Toml.table [("dev", Toml.table
      [("dependencies", Toml.table t)])])])]

/-- On a non-empty dev table, `dev_dependencies` produces exactly the
observable part of the partitioner's result: its error, or a document
carrying the main list under `dependency-groups.dev`, with the emptied
`group` removed. -/
theorem dev_dependencies_devDoc (t : List (String × Toml)) (ht : t ≠ []) :
    dev_dependencies (devDoc t) =
      (match parse_packages t [] [] with
       | .error e => .error e
       | .ok (uvd, _) =>
         .ok [("tool", Toml.table []), ("project", Toml.table []),
              ("dependency-groups", Toml.table [("dev", Toml.arr (uvd.map Toml.str))])]) := by
  obtain ⟨p0, rest0, rfl⟩ : ∃ p0 rest0, t = p0 :: rest0 := by
    cases t with
    | nil => exact absurd rfl ht
    | cons a b => exact ⟨a, b, rfl⟩
  rfl

/-- C10 counterexample: the dev entry
`pytest = {version = "1.0", optional = true}` has a truthy `optional`
flag and no extras, yet it is not silently dropped — its version
string is not of a supported shape, so `version_conversion` raises
`ValueError` and the whole run aborts, unlike the same table without
the entry, which succeeds. -/
theorem claim_C10_counterexample :
    dev_dependencies (devDoc [("pytest", Toml.table
        [("version", Toml.str "1.0"), ("optional", Toml.bool true)]),
      ("black", Toml.str "^22.0")]) = Except.error PyErr.valueError ∧
    dev_dependencies (devDoc [("black", Toml.str "^22.0")]) =
      Except.ok [("tool", Toml.table []), ("project", Toml.table []),
        ("dependency-groups", Toml.table [("dev", Toml.arr [Toml.str "black>=22.0"])])] :=
  ⟨rfl, rfl⟩

/-- C10 (amended): a dev-dependency entry whose table has no `extras`,
a truthy `optional` flag and a version string the translator accepts
is silently dropped by `dev_dependencies`: the partitioner routes it
into the module-level mutable default dict of `parse_packages` (shared
across the calls that omit the third argument and never read), so the
output is the same as if the entry were absent — and when it is the
only entry, the dev group is created empty. -/
theorem claim_C10 :
    (∀ (pre post : List (String × Toml)) (name : String) (t : List (String × Toml)),
      lookupD t "extras" = none →
      pyTruthy (lookupD t "optional") = true →
      (∃ vs cv, lookupD t "version" = some (Toml.str vs) ∧
        version_conversion vs = Except.ok cv) →
      pre ++ post ≠ [] →
      dev_dependencies (devDoc (pre ++ (name, Toml.table t) :: post)) =
        dev_dependencies (devDoc (pre ++ post))) ∧
    (∀ (name : String) (t : List (String × Toml)),
      lookupD t "extras" = none →
      pyTruthy (lookupD t "optional") = true →
      (∃ vs cv, lookupD t "version" = some (Toml.str vs) ∧
        version_conversion vs = Except.ok cv) →
      dev_dependencies (devDoc [(name, Toml.table t)]) =
        Except.ok [("tool", Toml.table []), ("project", Toml.table []),
          ("dependency-groups", Toml.table [("dev", Toml.arr [])])]) := by
  constructor
  · intro pre post name t hex hop hver hne
    obtain ⟨vs, cv, hv, hc⟩ := hver
    rw [dev_dependencies_devDoc _ (by simp), dev_dependencies_devDoc _ hne]
    have hskip := parse_uvPart_skip name t hex hop vs cv hv hc pre post [] []
    cases h1 : parse_packages (pre ++ (name, Toml.table t) :: post) [] [] with
    | error e1 =>
      cases h2 : parse_packages (pre ++ post) [] [] with
      | error e2 =>
        rw [h1, h2] at hskip
        simp only [uvPart] at hskip
        injection hskip with he
        rw [he]
      | ok p2 =>
        obtain ⟨l2, q2⟩ := p2
        rw [h1, h2] at hskip
        simp [uvPart] at hskip
    | ok p1 =>
      obtain ⟨l1, q1⟩ := p1
      cases h2 : parse_packages (pre ++ post) [] [] with
      | error e2 =>
        rw [h1, h2] at hskip
        simp [uvPart] at hskip
      | ok p2 =>
        obtain ⟨l2, q2⟩ := p2
        rw [h1, h2] at hskip
        simp only [uvPart] at hskip
        injection hskip with he
        rw [he]
  · intro name t hex hop hver
    obtain ⟨vs, cv, hv, hc⟩ := hver
    rw [dev_dependencies_devDoc _ (by simp)]
    have hp : parse_packages [(name, Toml.table t)] [] [] =
        Except.ok ([], [(name, cv)]) := by
      simp only [parse_packages, hex, hop]
      rw [if_pos trivial, hv]
      simp only [pyVersionConversion, hc]
      rfl
    rw [hp]
    rfl

/-- C10 witness: the amended theorem applied to the dev table
`{pytest = {version = "^7.0", optional = true}, black = "^22.0"}` and
to the singleton optional-only table. -/
theorem claim_C10_witness :
    dev_dependencies (devDoc [("pytest", Toml.table
        [("version", Toml.str "^7.0"), ("optional", Toml.bool true)]),
      ("black", Toml.str "^22.0")]) =
      dev_dependencies (devDoc [("black", Toml.str "^22.0")]) ∧
    dev_dependencies (devDoc [("pytest", Toml.table
        [("version", Toml.str "^7.0"), ("optional", Toml.bool true)])]) =
      Except.ok [("tool", Toml.table []), ("project", Toml.table []),
        ("dependency-groups", Toml.table [("dev", Toml.arr [])])] := by
  constructor
  · exact claim_C10.1 [] [("black", Toml.str "^22.0")] "pytest"
      [("version", Toml.str "^7.0"), ("optional", Toml.bool true)]
      rfl rfl ⟨"^7.0", ">=7.0", rfl, rfl⟩ (List.cons_ne_nil _ _)
  · exact claim_C10.2 "pytest"
      [("version", Toml.str "^7.0"), ("optional", Toml.bool true)]
      rfl rfl ⟨"^7.0", ">=7.0", rfl, rfl⟩
